import Mathlib

/-!
Verification of the Galamwatch geo-privacy core (`src/App.tsx`).

The development shallowly embeds the privacy-relevant fragments of the
source file:

* the utility `clamp` and the blur-radius policy of `submitReport`
  (lines 599-609);
* the geodesic helpers `haversine` (lines 37-45) and `randomPointInRing`
  (lines 46-64), with the two `Math.random()` draws made explicit
  parameters;
* the record lifecycle: creation (lines 611-624), the automatic
  "Received" acknowledgment timer (lines 646-658) and the operator
  "Advance Status" handler (lines 1346-1372);
* the redacted export clone `redactedClone` (lines 707-714);
* the heatmap pipeline `dpNoisy` (lines 1389-1393) and `MapView.grid`
  (lines 1411-1428), with the per-cell uniform draw made an explicit
  parameter.

JavaScript numbers that the program only moves around (coordinates,
counts, thresholds, random draws) are modelled as rationals; the
transcendental geodesic and noise computations are carried out in `ℝ`,
and the possibly infinite noised count lives in `EReal` (JavaScript
`Math.log 0 = -Infinity` propagates through the arithmetic exactly as
the `EReal` operations below do on the expressions that actually occur).
-/

open Real

namespace Galamwatch

/-! ### Utilities (source lines 35-36) -/

/-- Source line 35: `clamp(v, min, max) = Math.max(min, Math.min(max, v))`. -/
noncomputable def clamp (v lo hi : ℝ) : ℝ := max lo (min hi v)

/-- Source line 36: degrees to radians. -/
noncomputable def toRad (d : ℝ) : ℝ := d * π / 180

/-- Earth radius used throughout the source: `R = 6371e3` meters. -/
def earthR : ℝ := 6371000

/-- JavaScript `Math.atan2 y x`, realised as the argument of the complex
number `x + y·i`; both lie in `(-π, π]` and both send the origin to `0`. -/
noncomputable def atan2 (y x : ℝ) : ℝ := Complex.arg ⟨x, y⟩

/-! ### GeodesyKernel (source lines 37-64) -/

/-- Source lines 37-45: great-circle (haversine) distance in meters. -/
noncomputable def haversine (lat1 lon1 lat2 lon2 : ℝ) : ℝ :=
  let dLat := toRad (lat2 - lat1)
  let dLon := toRad (lon2 - lon1)
  let a := Real.sin (dLat / 2) ^ 2 +
    Real.cos (toRad lat1) * Real.cos (toRad lat2) * Real.sin (dLon / 2) ^ 2
  2 * earthR * atan2 (Real.sqrt a) (Real.sqrt (1 - a))

/-- Spherical forward projection: the body of `randomPointInRing`
(source lines 49-63) once the bearing and the distance have been drawn.
Returns the destination in degrees. -/
noncomputable def destPoint (lat lon bearing d : ℝ) : ℝ × ℝ :=
  let phi1 := toRad lat
  let lam1 := toRad lon
  let delta := d / earthR
  let phi2 := Real.arcsin
    (Real.sin phi1 * Real.cos delta + Real.cos phi1 * Real.sin delta * Real.cos bearing)
  let lam2 := lam1 + atan2
    (Real.sin bearing * Real.sin delta * Real.cos phi1)
    (Real.cos delta - Real.sin phi1 * Real.sin phi2)
  (phi2 * 180 / π, lam2 * 180 / π)

/-- Source lines 46-64: `randomPointInRing(lat, lon, minM, maxM)` with the
two `Math.random()` draws `u1` (bearing) and `u2` (distance) passed in
explicitly: `bearing = u1 * 2π` and `d = minM + u2 * (maxM - minM)`. -/
noncomputable def randomPointInRing (lat lon minM maxM u1 u2 : ℝ) : ℝ × ℝ :=
  destPoint lat lon (u1 * (2 * π)) (minM + u2 * (maxM - minM))

/-! ### PrivacyPolicy (source lines 599-609) -/

/-- Source lines 599-600: `minBlur = sensitiveMode ? 500 : 0` and
`chosenBlur = Math.max(minBlur, clamp(requested, 0, 2000))`. -/
noncomputable def resolveBlur (requested : ℝ) (sensitiveMode : Bool) : ℝ :=
  max (if sensitiveMode then 500 else 0) (clamp requested 0 2000)

/-- Source lines 601-609: the public offset is a ring sample in the
annulus `[max(1, blur/2), blur]` when the blur is positive, and the exact
point itself when the blur is zero. -/
noncomputable def derivePublicLocation (lat lon blur u1 u2 : ℝ) : ℝ × ℝ :=
  if 0 < blur then randomPointInRing lat lon (max 1 (blur * 0.5)) blur u1 u2
  else (lat, lon)

/-! ### Record lifecycle (source lines 611-658 and 1346-1372) -/

/-- The four report statuses of the `Report` type (source line 117). -/
inductive Status
  | Submitted
  | Received
  | InProgress
  | Resolved
  deriving DecidableEq, Repr

/-- Lifecycle-relevant state of one report: its current `status` and its
`history` of `(state, timestamp)` entries; timestamps are abstracted to
naturals. -/
structure LState where
  status : Status
  history : List (Status × ℕ)
  deriving DecidableEq, Repr

/-- Source lines 622-623: a fresh report has `status: "Submitted"` and
`history: [{ state: "Submitted", at: nowIso }]`. -/
def submitRecord (t0 : ℕ) : LState :=
  { status := .Submitted, history := [(.Submitted, t0)] }

/-- The two lifecycle events that can hit a report after creation: the
automatic acknowledgment fired by the 900 ms timer inside `submitReport`,
and an operator pressing the "Advance Status" button. -/
inductive Ev
  | ack (t : ℕ)
  | advance (t : ℕ)
  deriving DecidableEq, Repr

/-- One lifecycle event applied to one report.

* `ack` (source lines 646-658): the timer callback sets
  `status: "Received"` and appends `{ state: "Received", at: … }`
  unconditionally; it does not inspect the current status.
* `advance` (source lines 1346-1372): the button is only rendered when
  `r.status !== "Resolved"`, so on a `Resolved` record the event does
  nothing; otherwise the new status is `"Resolved"` when the current
  status is `"In Progress"` and `"In Progress"` in every other case, and
  one matching history entry is appended. -/
def applyEvent (r : LState) : Ev → LState
  | .ack t => { status := .Received, history := r.history ++ [(.Received, t)] }
  | .advance t =>
    if r.status = .Resolved then r
    else
      let s : Status := if r.status = .InProgress then .Resolved else .InProgress
      { status := s, history := r.history ++ [(s, t)] }

/-- A freshly submitted report driven through a sequence of lifecycle
events. -/
def runEvents (t0 : ℕ) (evs : List Ev) : LState :=
  evs.foldl applyEvent (submitRecord t0)

/-! ### Report records and the redacted export (source lines 96-119, 707-714) -/

/-- Media attachment kinds (source line 97). -/
inductive MediaType
  | image
  | video
  | audio
  deriving DecidableEq, Repr

/-- One media attachment (source line 97). -/
structure Media where
  type : MediaType
  name : String
  dataUrl : String
  deriving DecidableEq, Repr

/-- Optional contact block (source lines 98-106); `none` models the JS
value `null`. -/
structure Contact where
  shareContact : Bool
  phone : Option String
  email : Option String
  wantsCallback : Option Bool
  preferredTime : Option String
  deriving DecidableEq, Repr

/-- An exact GPS fix (source line 112). -/
structure Gps where
  lat : ℚ
  lon : ℚ
  accuracy : Option ℚ
  deriving DecidableEq, Repr

/-- A public (blurred) coordinate (source line 114). -/
structure Coord where
  lat : ℚ
  lon : ℚ
  deriving DecidableEq, Repr

/-- The `Report` record (source lines 107-119). -/
structure Report where
  id : String
  createdAt : String
  category : String
  description : String
  gps : Gps
  blurRadius : ℚ
  publicOffset : Coord
  media : List Media
  contact : Option Contact
  status : Status
  history : List (Status × String)
  deriving DecidableEq, Repr

/-- Source lines 707-714: `redactedClone` spreads the report and then
overrides `contact` with `null`, `media` with `[]`, and re-asserts
`gps`, `publicOffset` and `blurRadius` with their own current values. -/
def redactedClone (r : Report) : Report :=
  { id := r.id
    createdAt := r.createdAt
    category := r.category
    description := r.description
    gps := r.gps
    blurRadius := r.blurRadius
    publicOffset := r.publicOffset
    media := []
    contact := none
    status := r.status
    history := r.history }

/-! ### Heatmap pipeline (source lines 1389-1428) -/

/-- Grid cell size in degrees (source line 1413): `const cell = 0.01`. -/
def cellSize : ℚ := 1 / 100

/-- Source line 1418: a record is binned to the key
`(Math.round(lat / cell) * cell, Math.round(lon / cell) * cell)` computed
from its public offset.  JavaScript `Math.round` rounds half-up, which is
exactly Mathlib's `round`.  The code builds the string `"lat,lon"`; since
JavaScript number formatting is injective and the pieces contain no comma,
the string key is equivalent to the pair. -/
def cellKey (p : Coord) : ℚ × ℚ :=
  (round (p.lat / cellSize) * cellSize, round (p.lon / cellSize) * cellSize)

/-- One `map.set(ky, (map.get(ky) || 0) + 1)` step (source line 1419) on
an association list in `Map` insertion order: an existing key is updated
in place, a new key is appended at the end. -/
def bump : List ((ℚ × ℚ) × ℕ) → (ℚ × ℚ) → List ((ℚ × ℚ) × ℕ)
  | [], k => [(k, 1)]
  | kc :: rest, k =>
    if kc.1 = k then (kc.1, kc.2 + 1) :: rest else kc :: bump rest k

/-- Source lines 1414-1420: the raw per-cell occupancy counts of a record
list, in `Map` iteration (= insertion) order. -/
def binCounts (rs : List Report) : List ((ℚ × ℚ) × ℕ) :=
  rs.foldl (fun m r => bump m (cellKey r.publicOffset)) []

/-- The number of records of `rs` whose public offset falls in cell `k`. -/
def rawCount (rs : List Report) (k : ℚ × ℚ) : ℕ :=
  rs.countP fun r => decide (cellKey r.publicOffset = k)

/-- JavaScript `Math.sign`. -/
noncomputable def jsSign (x : ℝ) : ℝ :=
  if x < 0 then -1 else if 0 < x then 1 else 0

/-- JavaScript `Math.log` on the arguments that occur in `dpNoisy`
(`1 - 2*|u|` with `|u| ≤ 1/2`, hence nonnegative): `Math.log 0` is
`-Infinity`, modelled by `⊥ : EReal`, and a positive argument gives the
real logarithm. -/
noncomputable def jsLog (x : ℝ) : EReal :=
  if x = 0 then ⊥ else ((Real.log x : ℝ) : EReal)

/-- JavaScript `Math.round` extended to the infinities the way JavaScript
extends it: `Math.round(±Infinity) = ±Infinity`, and on a finite value it
is `⌊x + 1/2⌋`, which is Mathlib's `round`. -/
noncomputable def eround (x : EReal) : EReal :=
  if x = ⊥ then ⊥ else if x = ⊤ then ⊤ else ((round x.toReal : ℤ) : ℝ)

/-- Source lines 1389-1393: the Laplace-style noised count
`Math.round(count - (1/epsilon) * Math.sign(u) * Math.log(1 - 2*Math.abs(u)))`
with the uniform draw `u = Math.random() - 0.5 ∈ [-1/2, 1/2)` made an
explicit parameter.  The finite factor `(1/epsilon) * Math.sign(u)` is a
real number (the pipeline below never passes `epsilon = 0`), and the
`EReal` product and subtraction agree with IEEE float arithmetic on every
expression that occurs: a negative finite factor times `-Infinity` is
`+Infinity`, and `count - Infinity = -Infinity`. -/
noncomputable def dpNoisy (count : ℕ) (eps u : ℚ) : EReal :=
  eround (((count : ℝ) : EReal) -
    ((1 / (eps : ℝ) * jsSign (u : ℝ) : ℝ) : EReal) * jsLog (1 - 2 * |(u : ℝ)|))

/-- Source line 1424: `settings.dpEpsilon || 1.0` — a zero (falsy)
epsilon is replaced by the default `1.0`. -/
def dpEps (e : ℚ) : ℚ := if e = 0 then 1 else e

/-- Source line 1425: `settings.dpKMin || 3` — a zero (falsy) threshold
is replaced by the default `3`. -/
def dpK (k : ℚ) : ℚ := if k = 0 then 3 else k

/-- Source lines 1411-1428: the heatmap grid.  Records are binned by
`cellKey` of their public offset; each populated cell's raw count is
noised by `dpNoisy` with that cell's uniform draw `u ky`; a cell is kept
exactly when `noisy >= dpKMin`, and dropped cells do not appear in the
returned list at all. -/
noncomputable def grid (rs : List Report) (eps kMin : ℚ) (u : ℚ × ℚ → ℚ) :
    List ((ℚ × ℚ) × EReal) :=
  (binCounts rs).filterMap fun kc =>
    let noisy := dpNoisy kc.2 (dpEps eps) (u kc.1)
    if ((dpK kMin : ℝ) : EReal) ≤ noisy then some (kc.1, noisy) else none

/-! ### Lifecycle lemmas -/

/-- The lifecycle invariant of one report: the history starts with the
`(Submitted, createdAt)` entry, and its last entry's status is the
record's current status. -/
def LInv (t0 : ℕ) (r : LState) : Prop :=
  (∃ rest, r.history = (Status.Submitted, t0) :: rest) ∧
  r.history.getLast?.map Prod.fst = some r.status

theorem applyEvent_history (r : LState) (e : Ev) :
    ∃ tl, (applyEvent r e).history = r.history ++ tl := by
  cases e with
  | ack t => exact ⟨[(.Received, t)], rfl⟩
  | advance t =>
    by_cases h : r.status = .Resolved
    · exact ⟨[], by simp [applyEvent, h]⟩
    · exact ⟨[(if r.status = .InProgress then .Resolved else .InProgress, t)],
        by simp [applyEvent, h]⟩

theorem linv_applyEvent {t0 : ℕ} {r : LState} (h : LInv t0 r) (e : Ev) :
    LInv t0 (applyEvent r e) := by
  obtain ⟨⟨rest, hrest⟩, hlast⟩ := h
  cases e with
  | ack t =>
    refine ⟨⟨rest ++ [(.Received, t)], ?_⟩, ?_⟩
    · simp [applyEvent, hrest]
    · simp [applyEvent, List.getLast?_concat]
  | advance t =>
    by_cases hres : r.status = .Resolved
    · exact ⟨⟨rest, by simpa [applyEvent, hres] using hrest⟩,
        by simpa [applyEvent, hres] using hlast⟩
    · refine ⟨⟨rest ++ [(if r.status = .InProgress then .Resolved else .InProgress, t)], ?_⟩, ?_⟩
      · simp [applyEvent, hres, hrest]
      · simp [applyEvent, hres, List.getLast?_concat]

theorem linv_runEvents (t0 : ℕ) (evs : List Ev) : LInv t0 (runEvents t0 evs) := by
  suffices h : ∀ r, LInv t0 r → LInv t0 (evs.foldl applyEvent r) by
    exact h _ ⟨⟨[], rfl⟩, rfl⟩
  induction evs with
  | nil => exact fun r h => h
  | cons e evs ih => exact fun r h => ih _ (linv_applyEvent h e)

/-- C6: at creation and after every sequence of lifecycle events, the
history is non-empty, its first entry is `(Submitted, createdAt)`, the
status of its last entry equals the record's current status, and every
further event only appends to the history. -/
theorem history_invariants (t0 : ℕ) (evs : List Ev) :
    (runEvents t0 evs).history ≠ [] ∧
    (runEvents t0 evs).history.head? = some (Status.Submitted, t0) ∧
    (runEvents t0 evs).history.getLast?.map Prod.fst = some (runEvents t0 evs).status ∧
    ∀ e : Ev, ∃ tl, (runEvents t0 (evs ++ [e])).history = (runEvents t0 evs).history ++ tl := by
  obtain ⟨⟨rest, hrest⟩, hlast⟩ := linv_runEvents t0 evs
  refine ⟨by simp [hrest], by simp [hrest], hlast, fun e => ?_⟩
  have hfold : runEvents t0 (evs ++ [e]) = applyEvent (runEvents t0 evs) e := by
    simp [runEvents, List.foldl_append]
  rw [hfold]
  exact applyEvent_history _ e

/-- C2 (code bug): after an operator presses "Advance Status" twice on a
fresh report (Submitted → In Progress → Resolved), the 900 ms
acknowledgment timer still fires and moves the record from `Resolved`
back to `Received`, so the status is neither forward-monotone nor is
`Resolved` terminal. -/
theorem lifecycle_ack_overrides_resolved :
    (runEvents 0 [Ev.advance 1, Ev.advance 2]).status = Status.Resolved ∧
    (runEvents 0 [Ev.advance 1, Ev.advance 2, Ev.ack 3]).status = Status.Received := by
  exact ⟨rfl, rfl⟩

/-- C7 (counterexample): the only operator action, "Advance Status",
applied to a record in `In Progress` yields `Resolved`, not `Received`;
the operator toggle claimed between `Received` and `In Progress` does not
exist. -/
theorem advance_inProgress_not_received :
    (applyEvent ⟨Status.InProgress, []⟩ (Ev.advance 0)).status = Status.Resolved ∧
    Status.Resolved ≠ Status.Received := by
  exact ⟨rfl, by decide⟩

/-- C7 (amended): the operator "Advance Status" action never yields
`Received`; from `In Progress` it yields `Resolved`; and it yields
`Resolved` only when the record already was `In Progress` (or was already
`Resolved`, in which case the button is absent and nothing changes).  The
backward `In Progress → Received` move exists only as the automatic
acknowledgment event, not as an operator action. -/
theorem advance_status_transitions (r : LState) (t : ℕ) :
    (applyEvent r (Ev.advance t)).status ≠ Status.Received ∧
    (r.status = Status.InProgress → (applyEvent r (Ev.advance t)).status = Status.Resolved) ∧
    ((applyEvent r (Ev.advance t)).status = Status.Resolved →
      r.status = Status.InProgress ∨ r.status = Status.Resolved) := by
  obtain ⟨s, hist⟩ := r
  cases s <;> simp [applyEvent]

/-- Witness for C7's amended theorem at a concrete `In Progress` record. -/
theorem advance_status_transitions_w :
    (applyEvent ⟨Status.InProgress, ([] : List (Status × ℕ))⟩ (Ev.advance 0)).status =
      Status.Resolved :=
  (advance_status_transitions ⟨Status.InProgress, []⟩ 0).2.1 rfl

/-- C3: the resolved blur radius is `clamp(x, 0, 2000)` when sensitive
mode is off, and `max(500, clamp(x, 0, 2000))` when it is on, hence in
sensitive mode it is always at least `500` and at most `2000`. -/
theorem resolveBlur_spec (x : ℝ) :
    resolveBlur x false = clamp x 0 2000 ∧
    resolveBlur x true = max 500 (clamp x 0 2000) ∧
    500 ≤ resolveBlur x true ∧
    resolveBlur x true ≤ 2000 := by
  have hclamp_le : clamp x 0 2000 ≤ 2000 :=
    max_le (by norm_num) (min_le_left _ _)
  have hclamp_nonneg : (0 : ℝ) ≤ clamp x 0 2000 := le_max_left _ _
  refine ⟨?_, rfl, le_max_left _ _, max_le (by norm_num) hclamp_le⟩
  simpa [resolveBlur] using max_eq_right hclamp_nonneg

/-- C9: the redacted export clone equals the report with `contact`
nulled and `media` emptied, and every other field — in particular the
exact `gps` coordinates, the `publicOffset` and the `blurRadius` — is
preserved verbatim. -/
theorem redactedClone_spec (r : Report) :
    redactedClone r = { r with contact := none, media := [] } ∧
    (redactedClone r).contact = none ∧
    (redactedClone r).media = [] ∧
    (redactedClone r).gps = r.gps ∧
    (redactedClone r).publicOffset = r.publicOffset ∧
    (redactedClone r).blurRadius = r.blurRadius ∧
    (redactedClone r).id = r.id ∧
    (redactedClone r).createdAt = r.createdAt ∧
    (redactedClone r).category = r.category ∧
    (redactedClone r).description = r.description ∧
    (redactedClone r).status = r.status ∧
    (redactedClone r).history = r.history :=
  ⟨rfl, rfl, rfl, rfl, rfl, rfl, rfl, rfl, rfl, rfl, rfl, rfl⟩

/-! ### Heatmap lemmas -/

/-- Total count stored for key `k` in an association list (equals the
stored count when keys are distinct). -/
def keyTotal (m : List ((ℚ × ℚ) × ℕ)) (k : ℚ × ℚ) : ℕ :=
  (m.map fun kc => if kc.1 = k then kc.2 else 0).sum

theorem keyTotal_nil (k : ℚ × ℚ) : keyTotal [] k = 0 := rfl

theorem keyTotal_cons (kc : (ℚ × ℚ) × ℕ) (rest : List ((ℚ × ℚ) × ℕ)) (k : ℚ × ℚ) :
    keyTotal (kc :: rest) k = (if kc.1 = k then kc.2 else 0) + keyTotal rest k := by
  simp [keyTotal]

theorem keyTotal_eq_zero (k : ℚ × ℚ) :
    ∀ m : List ((ℚ × ℚ) × ℕ), k ∉ m.map Prod.fst → keyTotal m k = 0 := by
  intro m
  induction m with
  | nil => intro _; rfl
  | cons kc rest ih =>
    intro h
    simp only [List.map_cons, List.mem_cons] at h
    push_neg at h
    rw [keyTotal_cons, if_neg (Ne.symm h.1), ih h.2]

theorem keyTotal_bump (k k0 : ℚ × ℚ) :
    ∀ m : List ((ℚ × ℚ) × ℕ),
      keyTotal (bump m k) k0 = keyTotal m k0 + (if k = k0 then 1 else 0) := by
  intro m
  induction m with
  | nil => simp [bump, keyTotal_cons, keyTotal_nil]
  | cons kc rest ih =>
    by_cases h : kc.1 = k
    · simp only [bump, if_pos h]
      rw [keyTotal_cons, keyTotal_cons]
      simp only [h]
      split_ifs <;> omega
    · simp only [bump, if_neg h, keyTotal_cons, ih]
      omega

theorem bump_keys (k : ℚ × ℚ) :
    ∀ m : List ((ℚ × ℚ) × ℕ),
      (bump m k).map Prod.fst =
        if k ∈ m.map Prod.fst then m.map Prod.fst else m.map Prod.fst ++ [k] := by
  intro m
  induction m with
  | nil => simp [bump]
  | cons kc rest ih =>
    by_cases h : kc.1 = k
    · simp [bump, h]
    · simp only [bump, if_neg h, List.map_cons, ih, List.mem_cons]
      by_cases h2 : k ∈ rest.map Prod.fst
      · simp [h2, Ne.symm h]
      · simp [h2, Ne.symm h]

theorem nodup_bump (k : ℚ × ℚ) (m : List ((ℚ × ℚ) × ℕ))
    (h : (m.map Prod.fst).Nodup) : ((bump m k).map Prod.fst).Nodup := by
  rw [bump_keys]
  split_ifs with hmem
  · exact h
  · simp [List.nodup_append, h, hmem]

theorem bump_pos (k : ℚ × ℚ) :
    ∀ m : List ((ℚ × ℚ) × ℕ), (∀ kc ∈ m, 0 < kc.2) → ∀ kc ∈ bump m k, 0 < kc.2 := by
  intro m
  induction m with
  | nil =>
    intro _ kc hkc
    simp only [bump, List.mem_singleton] at hkc
    simp [hkc]
  | cons kc0 rest ih =>
    intro h kc hkc
    have hrest : ∀ kc ∈ rest, 0 < kc.2 := fun kc h2 => h kc (List.mem_cons_of_mem _ h2)
    by_cases heq : kc0.1 = k
    · simp only [bump, if_pos heq, List.mem_cons] at hkc
      rcases hkc with h1 | h2
      · simp [h1]
      · exact hrest kc h2
    · simp only [bump, if_neg heq, List.mem_cons] at hkc
      rcases hkc with h1 | h2
      · exact h kc (by simp [h1])
      · exact ih hrest kc h2

theorem mem_assoc_iff (k : ℚ × ℚ) (c : ℕ) :
    ∀ m : List ((ℚ × ℚ) × ℕ), (m.map Prod.fst).Nodup → (∀ kc ∈ m, 0 < kc.2) →
      ((k, c) ∈ m ↔ 0 < c ∧ keyTotal m k = c) := by
  intro m
  induction m with
  | nil => intro _ _; simp [keyTotal_nil]; omega
  | cons kc0 rest ih =>
    intro hnd hpos
    rw [List.map_cons, List.nodup_cons] at hnd
    have hrest : ∀ kc ∈ rest, 0 < kc.2 := fun kc h2 => hpos kc (List.mem_cons_of_mem _ h2)
    rw [List.mem_cons, keyTotal_cons]
    by_cases heq : kc0.1 = k
    · rw [if_pos heq, keyTotal_eq_zero k rest (heq ▸ hnd.1)]
      constructor
      · rintro (h1 | h2)
        · have hc : kc0.2 = c := by rw [← h1]
          exact ⟨hc ▸ hpos kc0 (List.mem_cons_self kc0 rest), by omega⟩
        · exact absurd (List.mem_map.mpr ⟨(k, c), h2, rfl⟩) (heq ▸ hnd.1)
      · rintro ⟨hc, hsum⟩
        left
        have : kc0.2 = c := by omega
        rw [← heq, ← this]
    · rw [if_neg heq, zero_add]
      constructor
      · rintro (h1 | h2)
        · exact absurd (congrArg Prod.fst h1).symm heq
        · exact (ih hnd.2 hrest).mp h2
      · intro hrhs
        exact Or.inr ((ih hnd.2 hrest).mpr hrhs)

theorem binCounts_aux :
    ∀ (rs : List Report) (m : List ((ℚ × ℚ) × ℕ)),
      (m.map Prod.fst).Nodup → (∀ kc ∈ m, 0 < kc.2) →
      ((rs.foldl (fun m r => bump m (cellKey r.publicOffset)) m).map Prod.fst).Nodup ∧
      (∀ kc ∈ rs.foldl (fun m r => bump m (cellKey r.publicOffset)) m, 0 < kc.2) ∧
      ∀ k, keyTotal (rs.foldl (fun m r => bump m (cellKey r.publicOffset)) m) k =
        keyTotal m k + rawCount rs k := by
  intro rs
  induction rs with
  | nil => exact fun m h1 h2 => ⟨h1, h2, fun k => by simp [rawCount]⟩
  | cons r rs ih =>
    intro m h1 h2
    obtain ⟨a1, a2, a3⟩ :=
      ih (bump m (cellKey r.publicOffset)) (nodup_bump _ _ h1) (bump_pos _ _ h2)
    refine ⟨a1, a2, fun k => ?_⟩
    rw [List.foldl_cons, a3 k, keyTotal_bump]
    simp only [rawCount, List.countP_cons, decide_eq_true_eq]
    split_ifs <;> omega

theorem binCounts_mem (rs : List Report) (k : ℚ × ℚ) (c : ℕ) :
    (k, c) ∈ binCounts rs ↔ 0 < c ∧ rawCount rs k = c := by
  obtain ⟨h1, h2, h3⟩ := binCounts_aux rs [] (by simp) (by simp)
  rw [binCounts, mem_assoc_iff k c _ h1 h2, h3 k, keyTotal_nil, zero_add]

theorem eround_coe (x : ℝ) : eround ((x : ℝ) : EReal) = (((round x : ℤ) : ℝ) : EReal) := by
  rw [eround, if_neg (EReal.coe_ne_bot x), if_neg (EReal.coe_ne_top x), EReal.toReal_coe]

theorem eround_bot : eround ⊥ = ⊥ := by
  rw [eround, if_pos rfl]

/-- On a draw in the open interval `(-1/2, 1/2)` the noised count is the
rounded real value, a finite integer. -/
theorem dpNoisy_finite (c : ℕ) (eps u : ℚ) (h1 : -(1 / 2 : ℚ) < u) (h2 : u < 1 / 2) :
    dpNoisy c eps u =
      (((round ((c : ℝ) -
        1 / (eps : ℝ) * jsSign (u : ℝ) * Real.log (1 - 2 * |(u : ℝ)|)) : ℤ) : ℝ) : EReal) := by
  have h1R : ((-(1 / 2) : ℚ) : ℝ) < (u : ℝ) := Rat.cast_lt.mpr h1
  have h2R : ((u : ℚ) : ℝ) < ((1 / 2 : ℚ) : ℝ) := Rat.cast_lt.mpr h2
  have hu : |(u : ℝ)| < 1 / 2 := by
    push_cast at h1R h2R
    rw [abs_lt]
    exact ⟨by linarith, by linarith⟩
  have harg : (0 : ℝ) < 1 - 2 * |(u : ℝ)| := by linarith
  rw [dpNoisy, jsLog, if_neg (ne_of_gt harg), ← EReal.coe_mul, ← EReal.coe_sub, eround_coe]

/-- At the boundary draw `u = -1/2` (underlying uniform sample `0`) the
code evaluates `Math.log 0 = -Infinity`, the negative factor flips it to
`+Infinity`, and the subtraction makes the noised count `-Infinity`. -/
theorem dpNoisy_half_bot (c : ℕ) (eps : ℚ) (heps : 0 < eps) :
    dpNoisy c eps (-(1 / 2)) = ⊥ := by
  have hcast : (((-(1 / 2) : ℚ)) : ℝ) = -(1 / 2 : ℝ) := by push_cast; ring
  have harg : (1 : ℝ) - 2 * |((-(1 / 2) : ℚ) : ℝ)| = 0 := by
    rw [hcast, abs_neg, abs_of_pos (show (0 : ℝ) < 1 / 2 by norm_num)]
    norm_num
  have hsign : jsSign ((-(1 / 2) : ℚ) : ℝ) = -1 := by
    rw [jsSign, if_pos (show ((-(1 / 2) : ℚ) : ℝ) < 0 by rw [hcast]; norm_num)]
  have hepsR : (0 : ℝ) < (eps : ℝ) := by exact_mod_cast heps
  have hfac : 1 / (eps : ℝ) * jsSign ((-(1 / 2) : ℚ) : ℝ) < 0 := by
    rw [hsign, mul_neg_one, neg_lt_zero]
    positivity
  rw [dpNoisy, harg, jsLog, if_pos rfl, EReal.coe_mul_bot_of_neg hfac, EReal.sub_top, eround_bot]

/-- C10: for every raw count and positive epsilon, the noised count is a
finite integer on every draw in the open interval `(-1/2, 1/2)`; at the
boundary draw `u = -1/2` the formula evaluates `ln 0` and the result is
negative infinity (`⊥`); and a `⊥` noised count never passes the
`>= dpKMin` inclusion test, so it never appears in the heatmap output. -/
theorem dpNoisy_finite_and_bot :
    (∀ (c : ℕ) (eps u : ℚ), 0 < eps → -(1 / 2 : ℚ) < u → u < 1 / 2 →
      ∃ z : ℤ, dpNoisy c eps u = ((z : ℝ) : EReal)) ∧
    (∀ (c : ℕ) (eps : ℚ), 0 < eps → dpNoisy c eps (-(1 / 2)) = ⊥) ∧
    (∀ (rs : List Report) (eps kMin : ℚ) (u : ℚ × ℚ → ℚ) (k : ℚ × ℚ),
      (k, (⊥ : EReal)) ∉ grid rs eps kMin u) := by
  refine ⟨fun c eps u _ h1 h2 => ⟨_, dpNoisy_finite c eps u h1 h2⟩,
    fun c eps heps => dpNoisy_half_bot c eps heps, ?_⟩
  intro rs eps kMin u k hmem
  simp only [grid, List.mem_filterMap] at hmem
  obtain ⟨kc, _, hf⟩ := hmem
  split_ifs at hf with hcond
  simp only [Option.some.injEq, Prod.mk.injEq] at hf
  rw [hf.2] at hcond
  exact EReal.coe_ne_bot _ (le_bot_iff.mp hcond)

/-- Witness for C10 at concrete inputs: count `0`, epsilon `1`, draw `0`
for finiteness, draw `-1/2` for the infinite case, and the empty record
set for the output-safety part. -/
theorem dpNoisy_finite_and_bot_w :
    (0 : ℚ) < 1 ∧ (∃ z : ℤ, dpNoisy 0 1 0 = ((z : ℝ) : EReal)) ∧
    dpNoisy 0 1 (-(1 / 2)) = ⊥ ∧
    ((0, 0), (⊥ : EReal)) ∉ grid [] 1 3 (fun _ => 0) :=
  ⟨by norm_num,
    dpNoisy_finite_and_bot.1 0 1 0 (by norm_num) (by norm_num) (by norm_num),
    dpNoisy_finite_and_bot.2.1 0 1 (by norm_num),
    dpNoisy_finite_and_bot.2.2 [] 1 3 (fun _ => 0) (0, 0)⟩

/-- C4: the heatmap contains exactly the cells that hold at least one
record's public coordinate and whose noised count passes the
`>= dpKMin` test; a populated cell that fails the test is absent from the
returned list, and a cell with raw count `0` never appears. -/
theorem heatmap_cell_membership (rs : List Report) (eps kMin : ℚ) (u : ℚ × ℚ → ℚ)
    (k : ℚ × ℚ) :
    (∃ n, (k, n) ∈ grid rs eps kMin u) ↔
      ((∃ r ∈ rs, cellKey r.publicOffset = k) ∧
        ((dpK kMin : ℝ) : EReal) ≤ dpNoisy (rawCount rs k) (dpEps eps) (u k)) := by
  constructor
  · rintro ⟨n, hn⟩
    simp only [grid, List.mem_filterMap] at hn
    obtain ⟨kc, hkc, hf⟩ := hn
    split_ifs at hf with hcond
    simp only [Option.some.injEq, Prod.mk.injEq] at hf
    obtain ⟨rfl, hn1⟩ := hf
    have hbc : 0 < kc.2 ∧ rawCount rs kc.1 = kc.2 :=
      (binCounts_mem rs kc.1 kc.2).mp (by simpa using hkc)
    rw [hbc.2]
    refine ⟨?_, hcond⟩
    have hpos : 0 < rawCount rs kc.1 := hbc.2 ▸ hbc.1
    rw [rawCount] at hpos
    obtain ⟨r, hr, hp⟩ := List.countP_pos_iff.mp hpos
    exact ⟨r, hr, of_decide_eq_true hp⟩
  · rintro ⟨⟨r, hr, hck⟩, hle⟩
    have hpos : 0 < rawCount rs k := by
      rw [rawCount]
      exact List.countP_pos_iff.mpr ⟨r, hr, by simp [hck]⟩
    have hmem : (k, rawCount rs k) ∈ binCounts rs := (binCounts_mem rs k _).mpr ⟨hpos, rfl⟩
    refine ⟨dpNoisy (rawCount rs k) (dpEps eps) (u k), ?_⟩
    simp only [grid, List.mem_filterMap]
    exact ⟨(k, rawCount rs k), hmem, by simp only [if_pos hle]⟩

/-- Two reports that agree on every field except the exact `gps` fix. -/
def AgreeExceptGps (a b : Report) : Prop :=
  a.id = b.id ∧ a.createdAt = b.createdAt ∧ a.category = b.category ∧
  a.description = b.description ∧ a.blurRadius = b.blurRadius ∧
  a.publicOffset = b.publicOffset ∧ a.media = b.media ∧ a.contact = b.contact ∧
  a.status = b.status ∧ a.history = b.history

/-- C5: the heatmap is computed only from the public offsets — two record
sets that agree on every field except the exact `gps` coordinates produce
identical heatmap output under the same noise draws. -/
theorem heatmap_ignores_exact_location (rs1 rs2 : List Report) (eps kMin : ℚ)
    (u : ℚ × ℚ → ℚ) (h : List.Forall₂ AgreeExceptGps rs1 rs2) :
    grid rs1 eps kMin u = grid rs2 eps kMin u := by
  have hbin : ∀ m, rs1.foldl (fun m r => bump m (cellKey r.publicOffset)) m =
      rs2.foldl (fun m r => bump m (cellKey r.publicOffset)) m := by
    induction h with
    | nil => exact fun m => rfl
    | cons hab hrest ih =>
      intro m
      rw [List.foldl_cons, List.foldl_cons, hab.2.2.2.2.2.1, ih]
  rw [grid, grid, binCounts, binCounts, hbin]

/-- A concrete report used to witness C5. -/
def repExactA : Report :=
  ⟨"w5", "t", "c", "d", ⟨1, 2, none⟩, 300, ⟨3, 4⟩, [], none, .Submitted, []⟩

/-- The same report as `repExactA` with a different exact `gps` fix. -/
def repExactB : Report :=
  ⟨"w5", "t", "c", "d", ⟨5, 6, some 7⟩, 300, ⟨3, 4⟩, [], none, .Submitted, []⟩

/-- Witness for C5 on two concrete singleton record sets that differ only
in the exact coordinates. -/
theorem heatmap_ignores_exact_location_w :
    List.Forall₂ AgreeExceptGps [repExactA] [repExactB] ∧
    grid [repExactA] 1 3 (fun _ => 0) = grid [repExactB] 1 3 (fun _ => 0) := by
  have h : List.Forall₂ AgreeExceptGps [repExactA] [repExactB] :=
    List.Forall₂.cons ⟨rfl, rfl, rfl, rfl, rfl, rfl, rfl, rfl, rfl, rfl⟩ List.Forall₂.nil
  exact ⟨h, heatmap_ignores_exact_location _ _ _ _ _ h⟩

/-- C8 (amended): the code performs no epsilon validation and nothing in
the pipeline fails with a typed error.  A zero (falsy) `dpEpsilon` is
silently replaced by the default `1.0` by the `||` guard, and any nonzero
epsilon — including a negative one — is passed through to `dpNoisy`,
which produces a finite noised count on every interior draw. -/
theorem dp_epsilon_defaulting :
    dpEps 0 = 1 ∧
    ∀ e : ℚ, e ≠ 0 → dpEps e = e ∧
      ∀ (c : ℕ) (v : ℚ), -(1 / 2 : ℚ) < v → v < 1 / 2 →
        ∃ z : ℤ, dpNoisy c e v = ((z : ℝ) : EReal) := by
  exact ⟨by simp [dpEps], fun e he =>
    ⟨by rw [dpEps, if_neg he], fun c v h1 h2 => ⟨_, dpNoisy_finite c e v h1 h2⟩⟩⟩

/-- Witness for C8's amended theorem at epsilon `-1`, count `1`, draw `0`. -/
theorem dp_epsilon_defaulting_w :
    dpEps 0 = 1 ∧ (-1 : ℚ) ≠ 0 ∧ dpEps (-1) = -1 ∧
    ∃ z : ℤ, dpNoisy 1 (-1) 0 = ((z : ℝ) : EReal) :=
  ⟨dp_epsilon_defaulting.1, by norm_num,
    (dp_epsilon_defaulting.2 (-1) (by norm_num)).1,
    (dp_epsilon_defaulting.2 (-1) (by norm_num)).2 1 0 (by norm_num) (by norm_num)⟩

/-- A concrete report at the origin used for the C8 counterexample. -/
def rep0 : Report :=
  ⟨"r0", "t0", "cat", "", ⟨0, 0, none⟩, 0, ⟨0, 0⟩, [], none, .Submitted, []⟩

/-- C8 (counterexample): with the non-positive epsilon `-1` the noise
step does not fail — the heatmap pipeline happily returns a noised
count. -/
theorem dp_negative_epsilon_counterexample :
    (-1 : ℚ) ≤ 0 ∧ grid [rep0] (-1) 1 (fun _ => 0) = [((0, 0), ((1 : ℝ) : EReal))] := by
  refine ⟨by norm_num, ?_⟩
  have hbin : binCounts [rep0] = [((0, 0), 1)] := by
    simp [binCounts, bump, cellKey, cellSize, rep0]
  have heps : dpEps (-1) = (-1 : ℚ) := by
    rw [dpEps, if_neg]
    norm_num
  have hnoisy : dpNoisy 1 (dpEps (-1)) 0 = ((1 : ℝ) : EReal) := by
    rw [heps, dpNoisy_finite 1 (-1) 0 (by norm_num) (by norm_num)]
    norm_num [jsSign, Real.log_one]
  have hkey : dpK 1 = 1 := by
    rw [dpK, if_neg]
    norm_num
  rw [grid, hbin]
  simp only [List.filterMap_cons, List.filterMap_nil, hnoisy, hkey]
  rw [if_pos]
  push_cast
  exact le_refl _

/-! ### Geodesy lemmas for the ring sampler -/

theorem toRad_unscale (t : ℝ) : toRad (t * 180 / π) = t := by
  rw [toRad]
  field_simp

theorem toRad_sub_unscale (a t : ℝ) : toRad (a - t * 180 / π) = toRad a - t := by
  rw [toRad, toRad]
  field_simp
  ring

theorem sin_sq_half_eq (t : ℝ) : Real.sin (t / 2) ^ 2 = 1 / 2 - Real.cos t / 2 := by
  have h := Real.sin_sq_eq_half_sub (t / 2)
  rwa [show 2 * (t / 2) = t by ring] at h

/-- The algebraic core of the forward-projection distance identity:
with `A` the sine of the destination latitude, the squared norm of the
atan2 arguments `(x, y)` of the longitude difference equals the squared
product of the two cosines. -/
theorem ring_norm_identity (s1 c1 sd cd sb cb A : ℝ)
    (h1 : s1 ^ 2 + c1 ^ 2 = 1) (hd : sd ^ 2 + cd ^ 2 = 1) (hb : sb ^ 2 + cb ^ 2 = 1)
    (hA : A = s1 * cd + c1 * sd * cb) :
    (cd - s1 * A) ^ 2 + (sb * sd * c1) ^ 2 = c1 ^ 2 * (1 - A ^ 2) := by
  linear_combination c1 ^ 2 * hd + (A ^ 2 - cd ^ 2) * h1 + c1 ^ 2 * sd ^ 2 * hb +
    (A - s1 * cd + c1 * sd * cb) * hA

/-- The haversine quantity `a` computed between the projected point and
the origin equals `sin²(δ/2)`: stated over the radian latitudes `φ1`,
bearing `b` and angular distance `δ`, with the projected latitude `φ2`,
the atan2 arguments `x, y` and the longitude difference `dLam` given by
their defining equations from `destPoint`. -/
theorem ring_a_eq (φ1 b δ A φ2 x y dLam : ℝ)
    (hp1 : -(π / 2) ≤ φ1) (hp2 : φ1 ≤ π / 2) (hδ0 : 0 ≤ δ) (hδπ : δ ≤ π)
    (hA : A = Real.sin φ1 * Real.cos δ + Real.cos φ1 * Real.sin δ * Real.cos b)
    (hφ2 : φ2 = Real.arcsin A)
    (hx : x = Real.cos δ - Real.sin φ1 * Real.sin φ2)
    (hy : y = Real.sin b * Real.sin δ * Real.cos φ1)
    (hΔ : dLam = atan2 y x) :
    Real.sin ((φ1 - φ2) / 2) ^ 2 + Real.cos φ2 * Real.cos φ1 * Real.sin (dLam / 2) ^ 2
      = Real.sin (δ / 2) ^ 2 := by
  have hc1 : 0 ≤ Real.cos φ1 := Real.cos_nonneg_of_mem_Icc ⟨hp1, hp2⟩
  have hsd : 0 ≤ Real.sin δ := Real.sin_nonneg_of_nonneg_of_le_pi hδ0 hδπ
  have hcs : 0 ≤ Real.cos φ1 * Real.sin δ := mul_nonneg hc1 hsd
  have hA1 : A ≤ 1 := by
    have hb1 := mul_le_mul_of_nonneg_left (Real.cos_le_one b) hcs
    have hs1 := Real.sin_le_one (φ1 + δ)
    rw [Real.sin_add] at hs1
    nlinarith
  have hA2 : -1 ≤ A := by
    have hb1 := mul_le_mul_of_nonneg_left (Real.neg_one_le_cos b) hcs
    have hs1 := Real.neg_one_le_sin (φ1 - δ)
    rw [Real.sin_sub] at hs1
    nlinarith
  have hsin2 : Real.sin φ2 = A := by rw [hφ2]; exact Real.sin_arcsin hA2 hA1
  have hc2 : 0 ≤ Real.cos φ2 := by rw [hφ2]; exact Real.cos_arcsin_nonneg A
  have hcos2sq : Real.cos φ2 ^ 2 = 1 - A ^ 2 := by
    rw [hφ2, Real.cos_arcsin, Real.sq_sqrt (by nlinarith : (0 : ℝ) ≤ 1 - A ^ 2)]
  have hx' : x = Real.cos δ - Real.sin φ1 * A := by rw [hx, hsin2]
  have hxy : x ^ 2 + y ^ 2 = (Real.cos φ1 * Real.cos φ2) ^ 2 := by
    rw [hx', hy,
      ring_norm_identity (Real.sin φ1) (Real.cos φ1) (Real.sin δ) (Real.cos δ)
        (Real.sin b) (Real.cos b) A (Real.sin_sq_add_cos_sq φ1)
        (Real.sin_sq_add_cos_sq δ) (Real.sin_sq_add_cos_sq b) hA,
      ← hcos2sq]
    ring
  have habs : Complex.abs ⟨x, y⟩ = Real.cos φ1 * Real.cos φ2 := by
    rw [Complex.abs_apply, Complex.normSq_mk,
      show x * x + y * y = x ^ 2 + y ^ 2 by ring, hxy]
    exact Real.sqrt_sq (mul_nonneg hc1 hc2)
  have hcosΔ : Real.cos φ1 * Real.cos φ2 * Real.cos dLam = x := by
    have h := Complex.abs_mul_cos_arg ⟨x, y⟩
    rw [habs] at h
    rw [hΔ, atan2]
    exact h
  rw [sin_sq_half_eq, sin_sq_half_eq, sin_sq_half_eq]
  linear_combination (-1 / 2 : ℝ) * Real.cos_sub φ1 φ2 + (-1 / 2 : ℝ) * hcosΔ +
    (-1 / 2 : ℝ) * hx' + (-(Real.sin φ1) / 2) * hsin2

/-- The haversine distance between the forward-projected point and its
origin is exactly the projection distance (on the spherical model both
`randomPointInRing` and `haversine` use, with Earth radius `earthR`),
whenever the origin latitude is valid and `0 ≤ d ≤ earthR * π`. -/
theorem haversine_destPoint (lat lon bearing d : ℝ)
    (hlat1 : -90 ≤ lat) (hlat2 : lat ≤ 90) (hd0 : 0 ≤ d) (hdpi : d ≤ earthR * π) :
    haversine (destPoint lat lon bearing d).1 (destPoint lat lon bearing d).2 lat lon
      = d := by
  have hR : (0 : ℝ) < earthR := by rw [earthR]; norm_num
  have hπ := Real.pi_pos
  have hp1 : -(π / 2) ≤ toRad lat := by
    rw [toRad]
    have h := mul_le_mul_of_nonneg_right hlat1 hπ.le
    linarith
  have hp2 : toRad lat ≤ π / 2 := by
    rw [toRad]
    have h := mul_le_mul_of_nonneg_right hlat2 hπ.le
    linarith
  have hδ0 : 0 ≤ d / earthR := div_nonneg hd0 hR.le
  have hδπ : d / earthR ≤ π := by
    rw [div_le_iff₀ hR, mul_comm]
    exact hdpi
  simp only [haversine, destPoint]
  rw [toRad_sub_unscale, toRad_unscale, toRad_sub_unscale, sub_add_cancel_left,
    neg_div, Real.sin_neg, neg_sq]
  rw [ring_a_eq (toRad lat) bearing (d / earthR) _ _ _ _ _ hp1 hp2 hδ0 hδπ
    rfl rfl rfl rfl rfl]
  have hhalf0 : 0 ≤ d / earthR / 2 := by linarith
  have hhalfpi : d / earthR / 2 ≤ π / 2 := by linarith
  have hsin : 0 ≤ Real.sin (d / earthR / 2) :=
    Real.sin_nonneg_of_nonneg_of_le_pi hhalf0 (by linarith)
  have hcos : 0 ≤ Real.cos (d / earthR / 2) :=
    Real.cos_nonneg_of_mem_Icc ⟨by linarith, hhalfpi⟩
  rw [Real.sqrt_sq hsin, ← Real.cos_sq', Real.sqrt_sq hcos]
  have hatan : atan2 (Real.sin (d / earthR / 2)) (Real.cos (d / earthR / 2))
      = d / earthR / 2 := by
    rw [atan2, Complex.mk_eq_add_mul_I, Complex.ofReal_cos, Complex.ofReal_sin]
    exact @Complex.arg_cos_add_sin_mul_I (d / earthR / 2) ⟨by linarith, by linarith⟩
  rw [hatan]
  field_simp
  ring

/-- A blur radius the form can actually request is a multiple of `50`
(the slider has `step = 50` and the preset buttons are multiples of 50),
so a positive resolved blur radius is at least `1`. -/
theorem resolveBlur_pos_ge_one (x : ℝ) (s : Bool) (hx : ∃ k : ℤ, x = 50 * k)
    (hpos : 0 < resolveBlur x s) : 1 ≤ resolveBlur x s := by
  obtain ⟨k, rfl⟩ := hx
  cases s with
  | true =>
    have h : (500 : ℝ) ≤ resolveBlur (50 * k) true := by
      rw [resolveBlur, if_pos rfl]
      exact le_max_left _ _
    linarith
  | false =>
    rcases le_or_lt ((50 : ℝ) * k) 0 with hk | hk
    · exfalso
      have hmin : min (2000 : ℝ) (50 * k) ≤ 0 := le_trans (min_le_right _ _) hk
      have : resolveBlur (50 * k) false ≤ 0 := by
        rw [resolveBlur, if_neg (by simp), clamp]
        simp only [max_le_iff]
        exact ⟨le_refl 0, le_refl 0, hmin⟩
      linarith
    · have hk0R : (0 : ℝ) < (k : ℝ) := by nlinarith
      have hk0 : (0 : ℤ) < k := by exact_mod_cast hk0R
      have hk1 : (1 : ℤ) ≤ k := by omega
      have hx50 : (50 : ℝ) ≤ 50 * k := by
        have : (1 : ℝ) ≤ (k : ℝ) := by exact_mod_cast hk1
        nlinarith
      calc (1 : ℝ) ≤ 50 := by norm_num
        _ ≤ min (2000 : ℝ) (50 * (k : ℝ)) := le_min (by norm_num) hx50
        _ ≤ clamp (50 * k) 0 2000 := le_max_right _ _
        _ ≤ resolveBlur (50 * k) false := le_max_right _ _

/-- The resolved blur radius never exceeds 2000. -/
theorem resolveBlur_le_2000 (x : ℝ) (s : Bool) : resolveBlur x s ≤ 2000 := by
  rw [resolveBlur, clamp]
  apply max_le
  · split_ifs <;> norm_num
  · exact max_le (by norm_num) (min_le_left _ _)

/-- C1: for every valid coordinate, every blur radius resolvable at
record creation (a slider value, a multiple of 50, through the
sensitive-mode policy) and every pair of uniform draws: when the resolved
blur is `0` the derived public location is the exact coordinate, and when
it is positive the haversine distance between the derived public location
and the exact coordinate lies in `[max(1, r/2), r]` meters. -/
theorem derivePublicLocation_distance (lat lon x : ℝ) (s : Bool) (u1 u2 : ℝ)
    (hlat1 : -90 ≤ lat) (hlat2 : lat ≤ 90) (hlon1 : -180 ≤ lon) (hlon2 : lon ≤ 180)
    (hx : ∃ k : ℤ, x = 50 * k) (hu1a : 0 ≤ u1) (hu1b : u1 < 1)
    (hu2a : 0 ≤ u2) (hu2b : u2 < 1) :
    (resolveBlur x s = 0 →
      derivePublicLocation lat lon (resolveBlur x s) u1 u2 = (lat, lon)) ∧
    (0 < resolveBlur x s →
      max 1 (resolveBlur x s / 2) ≤
        haversine (derivePublicLocation lat lon (resolveBlur x s) u1 u2).1
          (derivePublicLocation lat lon (resolveBlur x s) u1 u2).2 lat lon ∧
      haversine (derivePublicLocation lat lon (resolveBlur x s) u1 u2).1
          (derivePublicLocation lat lon (resolveBlur x s) u1 u2).2 lat lon ≤
        resolveBlur x s) := by
  constructor
  · intro h0
    rw [derivePublicLocation, h0, if_neg (lt_irrefl 0)]
  · intro hpos
    have h1 : 1 ≤ resolveBlur x s := resolveBlur_pos_ge_one x s hx hpos
    have h2000 : resolveBlur x s ≤ 2000 := resolveBlur_le_2000 x s
    set r := resolveBlur x s with hr
    have hmin_le : max 1 (r * 0.5) ≤ r := max_le h1 (by linarith)
    have hgap : (0 : ℝ) ≤ r - max 1 (r * 0.5) := by linarith
    have hd_lo : max 1 (r * 0.5) ≤ max 1 (r * 0.5) + u2 * (r - max 1 (r * 0.5)) := by
      have h := mul_nonneg hu2a hgap
      linarith
    have hd_hi : max 1 (r * 0.5) + u2 * (r - max 1 (r * 0.5)) ≤ r := by
      have h := mul_le_of_le_one_left hgap hu2b.le
      linarith
    have hone : (1 : ℝ) ≤ max 1 (r * 0.5) := le_max_left _ _
    have hd0 : 0 ≤ max 1 (r * 0.5) + u2 * (r - max 1 (r * 0.5)) := by
      have h := mul_nonneg hu2a hgap
      linarith
    have hdpi : max 1 (r * 0.5) + u2 * (r - max 1 (r * 0.5)) ≤ earthR * π := by
      have hπ3 : (3 : ℝ) < π := Real.pi_gt_three
      have hERpi : (2000 : ℝ) ≤ earthR * π := by
        rw [earthR]
        nlinarith
      linarith
    rw [derivePublicLocation, if_pos hpos, randomPointInRing]
    rw [haversine_destPoint lat lon (u1 * (2 * π))
      (max 1 (r * 0.5) + u2 * (r - max 1 (r * 0.5))) hlat1 hlat2 hd0 hdpi]
    constructor
    · rw [show r / 2 = r * 0.5 by ring_nf]
      exact hd_lo
    · exact hd_hi

/-- Witness for C1 at the exact coordinate `(0, 0)`, requested blur `300`
(a preset value, `50 * 6`), sensitive mode off, and both draws `0`. -/
theorem derivePublicLocation_distance_w :
    ((0 : ℝ) < resolveBlur 300 false) ∧
    max 1 (resolveBlur 300 false / 2) ≤
      haversine (derivePublicLocation 0 0 (resolveBlur 300 false) 0 0).1
        (derivePublicLocation 0 0 (resolveBlur 300 false) 0 0).2 0 0 ∧
    haversine (derivePublicLocation 0 0 (resolveBlur 300 false) 0 0).1
        (derivePublicLocation 0 0 (resolveBlur 300 false) 0 0).2 0 0 ≤
      resolveBlur 300 false := by
  have hpos : (0 : ℝ) < resolveBlur 300 false := by
    rw [resolveBlur, clamp]
    norm_num
  exact ⟨hpos,
    (derivePublicLocation_distance 0 0 300 false 0 0 (by norm_num) (by norm_num)
      (by norm_num) (by norm_num) ⟨6, by norm_num⟩ (by norm_num) (by norm_num)
      (by norm_num) (by norm_num)).2 hpos⟩

end Galamwatch
